import Mathlib

/-!
Verification development for the Wotu_FE_Code_Detection CI quality-gate step.

The TypeScript sources are shallowly embedded:
* `src/eslint.ts`   — change-set resolution (direct and env-branch-deploy mode),
  frontend scope filtering, the ESLint runner and its two-pass output parse;
* `src/typescript.ts` — the TypeScript checker, its scope filter and output parse;
* `src/typescript-coverage.ts` — the coverage checker with its provisioning steps;
* `src/index.ts`    — the `runStep` orchestrator (summary, totals, exit code).

External collaborators (git, the filesystem, spawned tools) are parameters:
a `Git` record of `Except`-valued operations stands for the `simple-git`
handle, a `String → Bool` predicate stands for `fs.existsSync`, and a
`String → Except String String` function stands for `execa` (the `.error`
payload carries `error.stdout || error.message`, which is what the source
reads in its catch blocks).

JavaScript string operations (`split`, `trim`, `includes`, `endsWith`,
`replace(/p/g, r)` and the two regular expressions used by the parsers) are
re-implemented by structural recursion over `List Char` so that every
definition evaluates inside `decide`/`rfl`.
-/

namespace Wotu

/-! ## JS string primitives -/

/-- JS whitespace for `trim` and `\s` (the ASCII part used by the outputs). -/
def isJsWs (c : Char) : Bool :=
  c = ' ' || c = '\t' || c = '\n' || c = '\r' || c = '\x0b' || c = '\x0c'

/-- `String.prototype.trim` on a char list. -/
def trimChars (cs : List Char) : List Char :=
  ((cs.dropWhile isJsWs).reverse.dropWhile isJsWs).reverse

/-- `s.trim()`. -/
def jsTrim (s : String) : String := String.mk (trimChars s.data)

/-- `s.split(sep)` for a one-character separator, JS semantics
(`"".split` gives `[""]`, adjacent separators give empty pieces). -/
def splitOnChar (sep : Char) : List Char → List (List Char)
  | [] => [[]]
  | c :: cs =>
    let r := splitOnChar sep cs
    if c = sep then [] :: r
    else
      match r with
      | h :: t => (c :: h) :: t
      | [] => [[c]]

/-- `s.split(sep)` returning strings. -/
def jsSplit (sep : Char) (s : String) : List String :=
  (splitOnChar sep s.data).map String.mk

/-- Is `p` a prefix of `cs`? -/
def isPref : List Char → List Char → Bool
  | [], _ => true
  | _ :: _, [] => false
  | a :: as, b :: bs => a = b && isPref as bs

/-- Drop the token `p` from the front of `cs`, or fail. -/
def dropPref : List Char → List Char → Option (List Char)
  | [], cs => some cs
  | _ :: _, [] => none
  | a :: as, b :: bs => if a = b then dropPref as bs else none

/-- Does `needle` occur inside `hay`? (JS `hay.includes(needle)`). -/
def subIn (needle : List Char) : List Char → Bool
  | [] => needle.isEmpty
  | c :: cs => isPref needle (c :: cs) || subIn needle cs

/-- `hay.includes(needle)` on strings (receiver first, as in the source). -/
def strContains (hay needle : String) : Bool := subIn needle.data hay.data

/-- `s.startsWith(p)`. -/
def strStarts (s p : String) : Bool := isPref p.data s.data

/-- `s.endsWith(p)`. -/
def strEnds (s p : String) : Bool := isPref p.data.reverse s.data.reverse

/-- Fueled worker for global literal replacement. -/
def replaceAllAux (pat repl : List Char) : Nat → List Char → List Char
  | 0, cs => cs
  | _ + 1, [] => []
  | fuel + 1, c :: cs =>
    if pat ≠ [] && isPref pat (c :: cs) then
      repl ++ replaceAllAux pat repl fuel (List.drop (pat.length - 1) cs)
    else
      c :: replaceAllAux pat repl fuel cs

/-- `s.replace(new RegExp(pat, 'g'), repl)` for a literal pattern:
non-overlapping left-to-right global replacement. -/
def replaceAllStr (s pat repl : String) : String :=
  String.mk (replaceAllAux pat.data repl.data s.data.length s.data)

/-- Join with newlines (used by the synthetic gateway to render a diff). -/
def joinLines : List String → String
  | [] => ""
  | [s] => s
  | s :: rest => s ++ "\n" ++ joinLines rest

/-- `diff.trim().split('\n').filter(file => file.length > 0)` — the shape both
resolvers use to turn raw `git diff --name-only` output into a path list. -/
def splitNonEmptyLines (s : String) : List String :=
  (jsSplit '\n' (jsTrim s)).filter (fun f => f.data.length > 0)

/-- JS `a || b` for an optional string (`undefined`/empty are falsy). -/
def jsOrOpt (a : Option String) (b : String) : String :=
  match a with
  | some s => if s = "" then b else s
  | none => b

/-- JS `a || b` for a string. -/
def jsOrStr (a b : String) : String := if a = "" then b else a

/-- `path.join(dir, file)`, modelled as separator concatenation. -/
def joinPath (dir file : String) : String := dir ++ "/" ++ file

/-! ## The version-control gateway

One field per `simple-git` operation the sources call.  Every operation
returns `Except String α`: `.error` is a thrown git error.  `diffRaw` and
`showRaw` return the raw stdout text; the resolvers do their own trimming
and splitting, as the source does. -/

structure Git where
  /-- `git.fetch()` -/
  fetch : Except String Unit
  /-- `git.log(['--merges', '--first-parent', branch, '-n', '1'])`:
  the hash of the most recent first-parent merge commit, if any. -/
  logMergeFP : String → Except String (Option String)
  /-- `git.show([commit, '--pretty=format:%P'])` raw output. -/
  showRaw : String → Except String String
  /-- `git.catFile(['-e', hash])` — object existence probe. -/
  catFile : String → Except String Unit
  /-- `git.raw(['merge-base', refA, refB])` raw output. -/
  mergeBaseRaw : String → String → Except String String
  /-- `git.diff(['--name-only', a, b])` raw output. -/
  diffRaw : String → String → Except String String

/-! ## `src/eslint.ts` -/

structure ESLintConfig where
  enableCheck : Bool
  sourceBranch : String
  targetBranch : String
  fullCheckMode : Bool
  workSpace : String
  projectDir : String
  checkDirectories : List String
  envBranchDeployMode : Bool
  ciCommitRefName : Option String

structure ESLintResult where
  success : Bool
  checkedFiles : List String
  errorCount : Nat
  warningCount : Nat
  output : String
deriving DecidableEq, Repr

/-- `getChangedFiles` (eslint.ts): fetch, then
`git.diff(['--name-only', origin/target, origin/source])`; any git error is
caught and yields `[]`. -/
def getChangedFiles (git : Git) (config : ESLintConfig) : List String :=
  match git.fetch with
  | .error _ => []
  | .ok _ =>
    match git.diffRaw ("origin/" ++ config.targetBranch) ("origin/" ++ config.sourceBranch) with
    | .error _ => []
    | .ok diff => splitNonEmptyLines diff

/-- `const deployBranch = ciCommitRefName || 'develop'` -/
def deployBranchOf (config : ESLintConfig) : String :=
  jsOrOpt config.ciCommitRefName "develop"

/-- `const masterBranch = targetBranch || 'master'` -/
def mainlineOf (config : ESLintConfig) : String :=
  jsOrStr config.targetBranch "master"

/-- `show.split(' ').filter(p => p.trim())` — the parent hashes of a merge
commit, parsed out of `git show --pretty=format:%P` output. -/
def parsedParents (sh : String) : List String :=
  (jsSplit ' ' sh).filter (fun p => jsTrim p ≠ "")

/-- `getEnvBranchChangedFiles` (eslint.ts): the branch-deploy traversal.
Every structural assumption that fails — log error, no merge commit, fewer
than two parents, unreachable second parent, merge-base or diff failure —
falls back to `getChangedFiles` on the same config.  (The outer
`catch` returning `[]` is unreachable: the fallback itself never throws.) -/
def getEnvBranchChangedFiles (git : Git) (config : ESLintConfig) : List String :=
  let originMasterBranch := "origin/" ++ mainlineOf config
  match git.logMergeFP (deployBranchOf config) with
  | .error _ => getChangedFiles git config
  | .ok none => getChangedFiles git config
  | .ok (some mergeCommit) =>
    match git.showRaw mergeCommit with
    | .error _ => getChangedFiles git config
    | .ok sh =>
      match parsedParents sh with
      | _ :: devEnd :: _ =>
        match git.catFile devEnd with
        | .error _ => getChangedFiles git config
        | .ok _ =>
          match git.mergeBaseRaw originMasterBranch devEnd with
          | .error _ => getChangedFiles git config
          | .ok initialBase =>
            match git.diffRaw (jsTrim initialBase) devEnd with
            | .error _ => getChangedFiles git config
            | .ok diff => splitNonEmptyLines diff
      | _ => getChangedFiles git config

/-- `filterFrontendFiles`: extension allow-list, check-directory membership,
then on-disk existence (`ex` stands for `fs.existsSync ∘ path.join projectDir`). -/
def filterFrontendFiles (files : List String) (projectDir : String)
    (checkDirectories : List String) (ex : String → Bool) : List String :=
  ((files.filter (fun file =>
      ([".js", ".ts", ".jsx", ".tsx", ".vue"]).any (fun e => strEnds file e))).filter
    (fun file =>
      checkDirectories.any (fun dir =>
        strStarts file (jsTrim dir ++ "/") || strStarts file (jsTrim dir ++ "\\")))).filter
    (fun file => ex (joinPath projectDir file))

/-- `getFullCheckFiles`: one glob pattern per (directory × extension) pair. -/
def getFullCheckFiles (checkDirectories : List String) : List String :=
  checkDirectories.flatMap (fun dir =>
    (["*.js", "*.ts", "*.jsx", "*.tsx", "*.vue"]).map (fun e =>
      jsTrim dir ++ "/**/" ++ e))

/-! ### The ESLint compact-format parse

`runESLintCheck`'s catch branch counts findings in two passes: first the
regular expression `:\s*line\s+\d+,\s*col\s+\d+,\s*Error\s*-` (and its
`Warning` twin) per non-blank line; if both counts are zero, a substring
pass over `'Error -'` / `'Warning -'`. -/

/-- `\s*` -/
def skipWs (cs : List Char) : List Char := cs.dropWhile isJsWs

/-- `\s+` -/
def skipWs1 : List Char → Option (List Char)
  | [] => none
  | c :: rest => if isJsWs c then some (rest.dropWhile isJsWs) else none

/-- `\d+` (greedy; every use site is followed by a non-digit literal,
so greediness without backtracking coincides with the regex). -/
def skipDigits1 : List Char → Option (List Char)
  | [] => none
  | c :: rest => if c.isDigit then some (rest.dropWhile Char.isDigit) else none

/-- Match `\s*line\s+\d+,\s*col\s+\d+,\s*KW\s*-` right after a `:`. -/
def sevPatternAt (kw : List Char) (cs : List Char) : Bool :=
  (Option.isSome <| do
    let r1 ← dropPref ("line".data) (skipWs cs)
    let r2 ← skipWs1 r1
    let r3 ← skipDigits1 r2
    let r4 ← dropPref (",".data) r3
    let r5 ← dropPref ("col".data) (skipWs r4)
    let r6 ← skipWs1 r5
    let r7 ← skipDigits1 r6
    let r8 ← dropPref (",".data) r7
    let r9 ← dropPref kw (skipWs r8)
    dropPref ("-".data) (skipWs r9))

/-- `regex.test(line)` for the severity pattern: search every `:` position. -/
def sevSearch (kw : List Char) : List Char → Bool
  | [] => false
  | ':' :: rest => sevPatternAt kw rest || sevSearch kw rest
  | _ :: rest => sevSearch kw rest

/-- Does `line` match the compact-format severity regex for keyword `kw`? -/
def sevLine (kw : String) (line : String) : Bool := sevSearch kw.data line.data

/-- First pass of the ESLint output parse (per non-blank line, `Error` regex
first, `else if` the `Warning` regex). -/
def primaryCounts (output : String) : Nat × Nat :=
  let lines := jsSplit '\n' output
  ((lines.filter (fun l => jsTrim l ≠ "" && sevLine "Error" l)).length,
   (lines.filter (fun l =>
      jsTrim l ≠ "" && !sevLine "Error" l && sevLine "Warning" l)).length)

/-- Second, substring-based pass (`line.includes('Error -')` /
`line.includes('Warning -')`; two independent `if`s, no blank-line guard). -/
def fallbackCounts (output : String) : Nat × Nat :=
  let lines := jsSplit '\n' output
  ((lines.filter (fun l => strContains l "Error -")).length,
   (lines.filter (fun l => strContains l "Warning -")).length)

/-- The combined two-pass count used by `runESLintCheck`'s catch branch. -/
def eslintCounts (output : String) : Nat × Nat :=
  let p := primaryCounts output
  if p.1 = 0 && p.2 = 0 then fallbackCounts output else p

/-- The `execa` command string built by `runESLintCheck`. -/
def eslintCommand (files : List String) (isFullCheck : Bool) : String :=
  if isFullCheck then "npx eslint . --format=compact"
  else
    "npx eslint " ++
      String.intercalate " " (files.map (fun f => "\"" ++ f ++ "\"")) ++
      " --format=compact"

/-- `runESLintCheck` (eslint.ts).  `tool cmd` is the `execa` invocation:
`.ok` carries `result.stdout`, `.error` carries `error.stdout || error.message`
(ESLint throws when it reported findings). -/
def runESLintCheck (files : List String) (projectDir : String)
    (isFullCheck : Bool) (tool : String → Except String String) : ESLintResult :=
  if !isFullCheck && files.isEmpty then
    ⟨true, [], 0, 0, "没有需要检查的文件"⟩
  else
    match tool (eslintCommand files isFullCheck) with
    | .ok stdout => ⟨true, files, 0, 0, jsOrStr stdout "ESLint检查通过"⟩
    | .error output =>
      let counts := eslintCounts output
      let cleanedOutput := replaceAllStr output projectDir "."
      ⟨counts.1 == 0, files, counts.1, counts.2, cleanedOutput⟩

/-- The per-checker environment of `performESLintCheck`: the
`git rev-parse --git-dir` probe, the git handle, the existence check and the
tool runner.  (`checkESLintConfig` only logs and its result is unused, so it
is not modelled.) -/
structure ESLintEnv where
  isGitRepo : Bool
  git : Git
  ex : String → Bool
  tool : String → Except String String

/-- `performESLintCheck` (eslint.ts).  `.error` is a thrown exception — the
only one the function raises itself is the not-a-git-repository error. -/
def performESLintCheck (config : ESLintConfig) (env : ESLintEnv) :
    Except String ESLintResult :=
  if !config.enableCheck then
    .ok ⟨true, [], 0, 0, "ESLint检查已禁用"⟩
  else if !env.isGitRepo then
    .error "当前目录不是git仓库，无法进行增量检查"
  else if config.fullCheckMode then
    .ok (runESLintCheck (getFullCheckFiles config.checkDirectories)
          config.projectDir true env.tool)
  else
    let changedFiles :=
      if config.envBranchDeployMode then getEnvBranchChangedFiles env.git config
      else getChangedFiles env.git config
    let filesToCheck :=
      filterFrontendFiles changedFiles config.projectDir config.checkDirectories env.ex
    if filesToCheck.isEmpty then
      .ok ⟨true, [], 0, 0, "没有前端代码变更"⟩
    else
      .ok (runESLintCheck filesToCheck config.projectDir false env.tool)

/-! ## `src/typescript.ts` -/

structure TSConfig where
  projectDir : String
  files : List String
  fullCheck : Bool
  checkDirectories : List String
  sourceBranch : String
  targetBranch : String

structure TSResult where
  success : Bool
  errorCount : Nat
  warningCount : Nat
  output : String
  checkedFiles : Int
deriving DecidableEq, Repr

/-- `getChangedFiles` (typescript.ts): unlike the eslint.ts variant, an empty
source branch diffs `origin/target` against `HEAD`. -/
def tsGetChangedFiles (git : Git) (config : TSConfig) : List String :=
  match git.fetch with
  | .error _ => []
  | .ok _ =>
    match
      (if config.sourceBranch ≠ "" then
        git.diffRaw ("origin/" ++ config.targetBranch) ("origin/" ++ config.sourceBranch)
      else
        git.diffRaw ("origin/" ++ config.targetBranch) "HEAD") with
    | .error _ => []
    | .ok diff => splitNonEmptyLines diff

/-- The exclusion patterns of `filterTypeScriptFiles`. -/
def tsExcludePatterns : List String :=
  ["node_modules/", "lib/", "dist/", ".test.ts", ".spec.ts", "test/"]

/-- One pattern test: directory patterns (`p` ends in `/`) match a leading or
embedded directory; file patterns match as substrings. -/
def tsPatternHits (file pattern : String) : Bool :=
  if strEnds pattern "/" then
    strStarts file pattern || strContains file ("/" ++ pattern)
  else
    strContains file pattern

/-- `filterTypeScriptFiles`: extension allow-list, exclusion patterns,
check-directory membership, on-disk existence. -/
def filterTypeScriptFiles (files : List String) (projectDir : String)
    (checkDirectories : List String) (ex : String → Bool) : List String :=
  (((files.filter (fun file =>
        ([".ts", ".tsx", ".vue"]).any (fun e => strEnds file e))).filter
      (fun file => !(tsExcludePatterns.any (tsPatternHits file)))).filter
    (fun file =>
      checkDirectories.any (fun dir =>
        strStarts file (jsTrim dir ++ "/") || strStarts file (jsTrim dir ++ "\\")))).filter
    (fun file => ex (joinPath projectDir file))

/-- Parse `\d+` returning its value (base-10 fold, as `parseInt(_, 10)`). -/
def takeDigits1 (cs : List Char) : Option (Nat × List Char) :=
  match cs with
  | [] => none
  | c :: _ =>
    if c.isDigit then
      some (((cs.takeWhile Char.isDigit).foldl
              (fun n d => n * 10 + (d.toNat - '0'.toNat)) 0),
            cs.dropWhile Char.isDigit)
    else none

/-- Match `/Found (\d+) error/` at the current position. -/
def foundAt (cs : List Char) : Option Nat := do
  let r1 ← dropPref ("Found ".data) cs
  let (n, r2) ← takeDigits1 r1
  let _ ← dropPref (" error".data) r2
  pure n

/-- `line.match(/Found (\d+) error/)` — first match anywhere in the line. -/
def foundSearch : List Char → Option Nat
  | [] => none
  | c :: rest =>
    match foundAt (c :: rest) with
    | some n => some n
    | none => foundSearch rest

/-- The line loop of `parseTypeScriptOutput`: count `': error TS'` lines,
`else` count `': warning TS'` lines, `else` take the max with a
`Found N error` summary line. -/
def parseTSLines : List String → Nat × Nat → Nat × Nat
  | [], acc => acc
  | l :: ls, (e, w) =>
    if strContains l ": error TS" then parseTSLines ls (e + 1, w)
    else if strContains l ": warning TS" then parseTSLines ls (e, w + 1)
    else
      match foundSearch l.data with
      | some n => parseTSLines ls (max e n, w)
      | none => parseTSLines ls (e, w)

/-- `parseTypeScriptOutput` (typescript.ts). -/
def parseTypeScriptOutput (output : String) : Nat × Nat :=
  parseTSLines (jsSplit '\n' output) (0, 0)

/-- Match `/^([^(]+)\(\d+,\d+\):\s*(error|warning)/` and return the captured
file name — used to count distinct files in the error output. -/
def tsFileOfLine (line : String) : Option String :=
  let cs := line.data
  let fname := cs.takeWhile (fun c => c ≠ '(')
  if fname.isEmpty then none
  else
    (do
      let r1 ← dropPref ("(".data) (cs.dropWhile (fun c => c ≠ '('))
      let (_, r2) ← takeDigits1 r1
      let r3 ← dropPref (",".data) r2
      let (_, r4) ← takeDigits1 r3
      let r5 ← dropPref ("):".data) r4
      let r6 := skipWs r5
      if isPref ("error".data) r6 || isPref ("warning".data) r6 then
        some (String.mk fname)
      else none)

/-- The `execa` command string of `runTypeScriptCheck`. -/
def tsCommand (fullCheck : Bool) (files : List String) : String :=
  if fullCheck then "npx tsc --noEmit --skipLibCheck --project tsconfig.json"
  else
    "npx tsc --noEmit --skipLibCheck " ++
      String.intercalate " " (files.map (fun f => "\"" ++ f ++ "\""))

/-- Environment of the TypeScript checker: does `tsconfig.json` exist, the
git handle and existence check for the incremental path, the tool runner. -/
structure TSEnv where
  tsconfigExists : Bool
  git : Git
  ex : String → Bool
  tool : String → Except String String

/-- The file-selection step of `runTypeScriptCheck`: `some files` to pass to
the tool (`[]` in full-check mode — the tool command carries no file
arguments there), `none` when incremental mode found nothing to check. -/
def tsPlan (config : TSConfig) (env : TSEnv) : Option (List String) :=
  if config.fullCheck then some []
  else
    let actualFiles :=
      if config.files.isEmpty then
        filterTypeScriptFiles (tsGetChangedFiles env.git config)
          config.projectDir config.checkDirectories env.ex
      else
        filterTypeScriptFiles config.files
          config.projectDir config.checkDirectories env.ex
    if actualFiles.isEmpty then none else some actualFiles

/-- `runTypeScriptCheck` (typescript.ts). -/
def runTypeScriptCheck (config : TSConfig) (env : TSEnv) : TSResult :=
  if !env.tsconfigExists then
    ⟨true, 0, 0, "未找到 tsconfig.json 文件，跳过 TypeScript 检查", 0⟩
  else
    match tsPlan config env with
    | none => ⟨true, 0, 0, "没有需要检查的 TypeScript 文件", 0⟩
    | some filesToCheck =>
      match env.tool (tsCommand config.fullCheck filesToCheck) with
      | .ok _ =>
        ⟨true, 0, 0, "TypeScript 检查通过",
         if config.fullCheck then -1 else (filesToCheck.length : Int)⟩
      | .error rawOut =>
        let cleanedOutput := replaceAllStr rawOut config.projectDir "."
        let counts := parseTypeScriptOutput cleanedOutput
        let actualCheckedFiles : Int :=
          if config.fullCheck then -1
          else (((jsSplit '\n' cleanedOutput).filterMap tsFileOfLine).dedup.length : Int)
        ⟨counts.1 == 0, counts.1, counts.2, cleanedOutput, actualCheckedFiles⟩

/-- `performTypeScriptCheck` (typescript.ts): builds the config and delegates. -/
def performTypeScriptCheck (projectDir : String) (files : List String)
    (fullCheck : Bool) (checkDirectories : List String)
    (sourceBranch targetBranch : String) (env : TSEnv) : TSResult :=
  runTypeScriptCheck
    ⟨projectDir, files, fullCheck, checkDirectories, sourceBranch, targetBranch⟩ env

/-! ## `src/typescript-coverage.ts` -/

structure TypeScriptCoverageResult where
  success : Bool
  threshold : Nat
  message : String
deriving DecidableEq, Repr

/-- The shape of an `execa` rejection the coverage catch block inspects:
`error.exitCode`, `error.all || error.stdout`, `error.message`. -/
structure ExecaError where
  exitCode : Option Int
  allOrStdout : String
  message : String
deriving DecidableEq, Repr

/-- Environment of the coverage checker: config-file presence, whether
`typescript-coverage-report` is already a devDependency, the provisioning
install result, and the `ts-coverage` tool run.  (The `createCoverageConfig`
manifest write is modelled through its only failure mode the claims touch:
the missing `package.json`.) -/
structure CoverageEnv where
  tsconfigExists : Bool
  packageJsonExists : Bool
  hasCoverageDep : Bool
  installResult : Except String Unit
  toolResult : Except ExecaError String

/-- `performTypeScriptCoverageCheck` (typescript-coverage.ts).  `.error` is a
thrown exception escaping to the orchestrator. -/
def performTypeScriptCoverageCheck (enableCheck : Bool) (threshold : Nat)
    (env : CoverageEnv) : Except String TypeScriptCoverageResult :=
  if !enableCheck then
    .ok ⟨true, threshold, "TypeScript覆盖率检查已禁用"⟩
  else if !env.tsconfigExists then
    .error "未找到 tsconfig.json 文件，无法进行TypeScript覆盖率检查"
  else
    let needInstall := !env.packageJsonExists || !env.hasCoverageDep
    let provision : Except String Unit :=
      if needInstall then
        match env.installResult with
        | .ok _ => .ok ()
        | .error m => .error ("安装TypeScript覆盖率依赖失败: " ++ m)
      else .ok ()
    match provision with
    | .error m => .error ("TypeScript覆盖率检查执行失败: " ++ m)
    | .ok _ =>
      if !env.packageJsonExists then
        .error ("TypeScript覆盖率检查执行失败: " ++ "未找到 package.json 文件")
      else
        match env.toolResult with
        | .ok _ =>
          .ok ⟨true, threshold,
            "TypeScript覆盖率检查通过，检测结果大于" ++ toString threshold ++
              "%。详情请查看输出日志"⟩
        | .error e =>
          if e.exitCode = some 1 && e.allOrStdout ≠ "" then
            .ok ⟨false, threshold,
              "TypeScript覆盖率检查失败，检测结果小于" ++ toString threshold ++
                "%。详情请查看输出日志"⟩
          else
            .error ("TypeScript覆盖率检查执行失败: " ++ e.message)

/-! ## `src/index.ts` — the `runStep` orchestrator

`runStep` accumulates, per checker, one entry in `checkResults`, a
`hasErrors` flag and error/warning totals, then exits 1 when `hasErrors`
holds and 0 otherwise.  Each checker's invocation is a `StepInputs` field:
`.error` stands for an exception that the per-checker `catch` converts into
an `执行错误` entry.  The TypeScript invocation is a function of the file
list the ESLint checker recorded (`checkedFiles`), which stays `[]` when
ESLint is disabled or threw. -/

/-- One `checkResults` entry, classified; `errored` keeps the caught
exception message the source interpolates into the entry. -/
inductive SummaryEntry where
  | passed
  | failed
  | disabled
  | errored (msg : String)
deriving DecidableEq, Repr

/-- The per-checker contribution to the accumulators of `runStep`. -/
structure CheckerTally where
  entry : SummaryEntry
  failed : Bool
  errors : Nat
  warnings : Nat
deriving DecidableEq, Repr

/-- ESLint block of `runStep`. -/
def eslintTally : Bool → Except String ESLintResult → CheckerTally
  | false, _ => ⟨.disabled, false, 0, 0⟩
  | true, .error m => ⟨.errored m, true, 0, 0⟩
  | true, .ok r =>
    if r.success then ⟨.passed, false, 0, r.warningCount⟩
    else ⟨.failed, true, r.errorCount, r.warningCount⟩

/-- TypeScript block of `runStep`. -/
def tsTally : Bool → Except String TSResult → CheckerTally
  | false, _ => ⟨.disabled, false, 0, 0⟩
  | true, .error m => ⟨.errored m, true, 0, 0⟩
  | true, .ok r =>
    if r.success then ⟨.passed, false, 0, r.warningCount⟩
    else ⟨.failed, true, r.errorCount, r.warningCount⟩

/-- Coverage block of `runStep` (contributes no error/warning totals). -/
def covTally : Bool → Except String TypeScriptCoverageResult → CheckerTally
  | false, _ => ⟨.disabled, false, 0, 0⟩
  | true, .error m => ⟨.errored m, true, 0, 0⟩
  | true, .ok r =>
    if r.success then ⟨.passed, false, 0, 0⟩ else ⟨.failed, true, 0, 0⟩

structure StepInputs where
  userScriptOk : Bool
  enableESLint : Bool
  enableTypeScript : Bool
  enableCoverage : Bool
  eslintRun : Except String ESLintResult
  tsRun : List String → Except String TSResult
  covRun : Except String TypeScriptCoverageResult

/-- `let checkedFiles = result.checkedFiles` — recorded on any non-throwing
ESLint result, `[]` otherwise. -/
def checkedFilesOf (inp : StepInputs) : List String :=
  if inp.enableESLint then
    match inp.eslintRun with
    | .ok r => r.checkedFiles
    | .error _ => []
  else []

structure StepOutcome where
  exitCode : Nat
  summary : List SummaryEntry
  totalErrors : Nat
  totalWarnings : Nat
deriving DecidableEq, Repr

/-- `runStep` (index.ts): user script first (failure exits 1 before any
checker), then the three checker blocks in order, then the summary and the
exit decision `hasErrors ? exit(1) : success`. -/
def runStepModel (inp : StepInputs) : StepOutcome :=
  if !inp.userScriptOk then ⟨1, [], 0, 0⟩
  else
    let te := eslintTally inp.enableESLint inp.eslintRun
    let tt := tsTally inp.enableTypeScript (inp.tsRun (checkedFilesOf inp))
    let tc := covTally inp.enableCoverage inp.covRun
    ⟨if te.failed || tt.failed || tc.failed then 1 else 0,
     [te.entry, tt.entry, tc.entry],
     te.errors + tt.errors + tc.errors,
     te.warnings + tt.warnings + tc.warnings⟩

/-! ## A synthetic repository family for the branch-deploy algorithm

`SynthHist k n` is the history of the spec's testable property: feature
branch cut from mainline at `base` (commit A), advanced through `feat 1 …
feat n` (B = `feat n`), while mainline advanced independently through
`main 1 … main k`; `merge` is M with parents `[mainline tip, B]`.
Ancestry is the reflexive-transitive closure of the parent relation, and a
merge-base is a common ancestor every common ancestor reaches — `base` is
the unique one for (mainline tip, B), whatever `k` is. -/

inductive CId where
  | base
  | main (i : Nat)
  | feat (j : Nat)
  | merge
deriving DecidableEq, Repr

/-- The first parent of the merge commit: the mainline tip. -/
def synthMainTip (k : Nat) : CId := if k = 0 then CId.base else CId.main k

/-- Parent lists of the synthetic history (ids outside `1..k` / `1..n` are
not reachable from the commits the claims mention). -/
def synthParents (k n : Nat) : CId → List CId
  | CId.base => []
  | CId.main 0 => [CId.base]
  | CId.main 1 => [CId.base]
  | CId.main (i + 2) => [CId.main (i + 1)]
  | CId.feat 0 => [CId.base]
  | CId.feat 1 => [CId.base]
  | CId.feat (j + 2) => [CId.feat (j + 1)]
  | CId.merge => [synthMainTip k, CId.feat n]

/-- `b` is a parent of `a`. -/
def parentRel (par : CId → List CId) (a b : CId) : Prop := b ∈ par a

/-- `c` is an ancestor of `a` (following parent links, reflexively). -/
def Anc (par : CId → List CId) (a c : CId) : Prop :=
  Relation.ReflTransGen (parentRel par) a c

/-- git's merge-base: a common ancestor of `a` and `b` that every common
ancestor of `a` and `b` is an ancestor of (a best common ancestor). -/
def IsMergeBase (par : CId → List CId) (a b c : CId) : Prop :=
  Anc par a c ∧ Anc par b c ∧ ∀ d, Anc par a d → Anc par b d → Anc par c d

/-- Per-commit file contents, as a version number per path: mainline commits
touch `main.ts`, feature commits touch `feature.ts`. -/
def snapshot (k n : Nat) : CId → String → Nat
  | CId.base, _ => 0
  | CId.main i, f => if f = "main.ts" then i else 0
  | CId.feat j, f => if f = "feature.ts" then j else 0
  | CId.merge, f =>
    if f = "main.ts" then k else if f = "feature.ts" then n else 0

/-- `git diff --name-only a b` over the two-file universe: the paths whose
contents differ between the two snapshots. -/
def diffFiles (snap : CId → String → Nat) (a b : CId) : List String :=
  (["main.ts", "feature.ts"]).filter (fun f => snap a f ≠ snap b f)

/-- The gateway view of `SynthHist k n`, answering exactly the queries the
branch-deploy traversal makes: the deploy branch's latest first-parent merge
is `M`, whose parents render as `"T B"` (`T` the mainline tip, `B` the
feature tip), `B` exists, the merge-base of `origin/master` and `B` is
`base` (justified by `synth_isMergeBase`), and the diff of `base..B` renders
`diffFiles` one path per line. -/
def synthGit (k n : Nat) : Git where
  fetch := .ok ()
  logMergeFP := fun br => if br = "develop" then .ok (some "M") else .ok none
  showRaw := fun c => if c = "M" then .ok "T B" else .error "unknown commit"
  catFile := fun h =>
    if h = "B" || h = "T" || h = "base" then .ok () else .error "missing object"
  mergeBaseRaw := fun a b =>
    if a = "origin/master" && b = "B" then .ok "base" else .error "no merge base"
  diffRaw := fun a b =>
    if a = "base" && b = "B" then
      .ok (joinLines (diffFiles (snapshot k n) CId.base (CId.feat n)))
    else .error "bad revision"

/-- The configuration `runStep` builds in env-branch-deploy mode (source
branch cleared, deploy branch from `CI_COMMIT_REF_NAME`). -/
def synthConfig : ESLintConfig :=
  ⟨true, "", "master", false, "/ws", "/proj", ["src"], true, some "develop"⟩

/-! ### Ancestry facts about the synthetic history -/

theorem anc_base_eq (k n : Nat) {d : CId}
    (h : Anc (synthParents k n) CId.base d) : d = CId.base := by
  rcases h.cases_head with h | ⟨b, hb, _⟩
  · exact h.symm
  · simp [parentRel, synthParents] at hb

theorem anc_main_base (k n : Nat) : ∀ i, Anc (synthParents k n) (CId.main i) CId.base
  | 0 => Relation.ReflTransGen.head (by simp [parentRel, synthParents]) .refl
  | 1 => Relation.ReflTransGen.head (by simp [parentRel, synthParents]) .refl
  | i + 2 =>
    Relation.ReflTransGen.head (b := CId.main (i + 1))
      (by simp [parentRel, synthParents]) (anc_main_base k n (i + 1))

theorem anc_feat_base (k n : Nat) : ∀ j, Anc (synthParents k n) (CId.feat j) CId.base
  | 0 => Relation.ReflTransGen.head (by simp [parentRel, synthParents]) .refl
  | 1 => Relation.ReflTransGen.head (by simp [parentRel, synthParents]) .refl
  | j + 2 =>
    Relation.ReflTransGen.head (b := CId.feat (j + 1))
      (by simp [parentRel, synthParents]) (anc_feat_base k n (j + 1))

/-- Every ancestor of a mainline commit is `base` or a mainline commit. -/
theorem anc_main_shape (k n : Nat) :
    ∀ i d, Anc (synthParents k n) (CId.main i) d →
      d = CId.base ∨ ∃ j, d = CId.main j
  | 0, d, h => by
    rcases h.cases_head with h | ⟨b, hb, h2⟩
    · exact Or.inr ⟨0, h.symm⟩
    · simp [parentRel, synthParents] at hb
      exact Or.inl (anc_base_eq k n (hb ▸ h2))
  | 1, d, h => by
    rcases h.cases_head with h | ⟨b, hb, h2⟩
    · exact Or.inr ⟨1, h.symm⟩
    · simp [parentRel, synthParents] at hb
      exact Or.inl (anc_base_eq k n (hb ▸ h2))
  | i + 2, d, h => by
    rcases h.cases_head with h | ⟨b, hb, h2⟩
    · exact Or.inr ⟨i + 2, h.symm⟩
    · simp [parentRel, synthParents] at hb
      exact anc_main_shape k n (i + 1) d (hb ▸ h2)

/-- Every ancestor of a feature commit is `base` or a feature commit. -/
theorem anc_feat_shape (k n : Nat) :
    ∀ j d, Anc (synthParents k n) (CId.feat j) d →
      d = CId.base ∨ ∃ i, d = CId.feat i
  | 0, d, h => by
    rcases h.cases_head with h | ⟨b, hb, h2⟩
    · exact Or.inr ⟨0, h.symm⟩
    · simp [parentRel, synthParents] at hb
      exact Or.inl (anc_base_eq k n (hb ▸ h2))
  | 1, d, h => by
    rcases h.cases_head with h | ⟨b, hb, h2⟩
    · exact Or.inr ⟨1, h.symm⟩
    · simp [parentRel, synthParents] at hb
      exact Or.inl (anc_base_eq k n (hb ▸ h2))
  | j + 2, d, h => by
    rcases h.cases_head with h | ⟨b, hb, h2⟩
    · exact Or.inr ⟨j + 2, h.symm⟩
    · simp [parentRel, synthParents] at hb
      exact anc_feat_shape k n (j + 1) d (hb ▸ h2)

/-- `base` is a merge-base of the mainline tip and the feature tip, for every
number `k` of mainline commits added after the divergence point. -/
theorem synth_isMergeBase (k n : Nat) :
    IsMergeBase (synthParents k n) (synthMainTip k) (CId.feat n) CId.base := by
  refine ⟨?_, anc_feat_base k n n, ?_⟩
  · unfold synthMainTip
    split
    · exact .refl
    · exact anc_main_base k n k
  · intro d h1 h2
    have hs1 : d = CId.base ∨ ∃ j, d = CId.main j := by
      unfold synthMainTip at h1
      split at h1
      · exact Or.inl (anc_base_eq k n h1)
      · exact anc_main_shape k n k d h1
    have hs2 := anc_feat_shape k n n d h2
    rcases hs1 with rfl | ⟨j, rfl⟩
    · exact .refl
    · rcases hs2 with h | ⟨i, h⟩ <;> simp at h

/-- …and it is the only one. -/
theorem synth_mergeBase_unique (k n : Nat) (c : CId)
    (h : IsMergeBase (synthParents k n) (synthMainTip k) (CId.feat n) c) :
    c = CId.base := by
  have hs1 : c = CId.base ∨ ∃ j, c = CId.main j := by
    have h1 := h.1
    unfold synthMainTip at h1
    split at h1
    · exact Or.inl (anc_base_eq k n h1)
    · exact anc_main_shape k n k c h1
  have hs2 := anc_feat_shape k n n c h.2.1
  rcases hs1 with rfl | ⟨j, rfl⟩
  · rfl
  · rcases hs2 with h2 | ⟨i, h2⟩ <;> simp at h2

/-- The feature branch changed exactly `feature.ts` since the divergence
point, independently of `k`. -/
theorem synth_diff_base_feat (k n : Nat) (hn : 1 ≤ n) :
    diffFiles (snapshot k n) CId.base (CId.feat n) = ["feature.ts"] := by
  have hne : ¬ ((0 : Nat) = n) := by omega
  simp [diffFiles, snapshot, hne]

/-! ## Claim theorems -/

/-- **C1** — In branch-deploy mode, whenever the most recent first-parent
merge commit on the deploy branch has parents `[mainlineTip, B]` and `B` is
a reachable object, resolution returns exactly the `--name-only` diff
between `merge-base(origin/<mainlineBranch>, B)` and `B` (first conjunct,
over any gateway); on the synthetic history — feature cut from mainline at
`base`, advanced to `B = feat n`, merged into `deploy` while mainline
advanced by `k` commits — the result is exactly the feature branch's own
changed files `["feature.ts"]`, independent of `k` (second conjunct), with
the gateway's merge-base answer `base` being the unique best common ancestor
of the mainline tip and `B` in the commit graph (last two conjuncts). -/
theorem branch_deploy_exact_changeset :
    (∀ (git : Git) (cfg : ESLintConfig) (m sh base d p0 p1 : String)
        (rest : List String),
      git.logMergeFP (deployBranchOf cfg) = .ok (some m) →
      git.showRaw m = .ok sh →
      parsedParents sh = p0 :: p1 :: rest →
      git.catFile p1 = .ok () →
      git.mergeBaseRaw ("origin/" ++ mainlineOf cfg) p1 = .ok base →
      git.diffRaw (jsTrim base) p1 = .ok d →
      getEnvBranchChangedFiles git cfg = splitNonEmptyLines d)
    ∧ (∀ k n, 1 ≤ n →
        getEnvBranchChangedFiles (synthGit k n) synthConfig = ["feature.ts"])
    ∧ (∀ k n, IsMergeBase (synthParents k n) (synthMainTip k) (CId.feat n) CId.base)
    ∧ (∀ k n c, IsMergeBase (synthParents k n) (synthMainTip k) (CId.feat n) c →
        c = CId.base) := by
  refine ⟨?_, ?_, fun k n => synth_isMergeBase k n, fun k n c h => synth_mergeBase_unique k n c h⟩
  · intro git cfg m sh base d p0 p1 rest hlog hshow hpar hcat hmb hdiff
    simp only [getEnvBranchChangedFiles, hlog, hshow, hpar, hcat, hmb, hdiff]
  · intro k n hn
    have hd := synth_diff_base_feat k n hn
    simp only [getEnvBranchChangedFiles, synthGit, synthConfig, deployBranchOf,
      mainlineOf, jsOrOpt, jsOrStr]
    norm_num
    rw [show parsedParents "T B" = ["T", "B"] from by decide]
    norm_num [show jsTrim "base" = "base" from by decide]
    rw [hd]
    decide

theorem branch_deploy_exact_changeset_witness :
    getEnvBranchChangedFiles (synthGit 2 3) synthConfig = splitNonEmptyLines "feature.ts"
    ∧ getEnvBranchChangedFiles (synthGit 0 1) synthConfig = ["feature.ts"] :=
  ⟨branch_deploy_exact_changeset.1 (synthGit 2 3) synthConfig "M" "T B" "base"
      "feature.ts" "T" "B" [] rfl rfl (by decide) rfl rfl rfl,
   branch_deploy_exact_changeset.2.1 0 1 (by decide)⟩

/-- A gateway on which every branch-deploy precondition fails at the first
step: no merge commit is found on any branch. -/
def fbGit : Git :=
  ⟨.error "offline", fun _ => .ok none, fun _ => .error "na",
   fun _ => .error "na", fun _ _ => .error "na", fun _ _ => .error "na"⟩

/-- **C2** — Whenever a branch-deploy traversal precondition fails — the log
query errors or finds no first-parent merge commit, `git show` errors, the
merge commit has fewer than two parsed parents, the second parent is not a
reachable object, or the merge-base or diff call errors — the resolver
returns exactly `getChangedFiles` on the same configuration. -/
theorem branch_deploy_fallback_eq_direct (git : Git) (cfg : ESLintConfig) :
    (∀ e, git.logMergeFP (deployBranchOf cfg) = .error e →
      getEnvBranchChangedFiles git cfg = getChangedFiles git cfg)
    ∧ (git.logMergeFP (deployBranchOf cfg) = .ok none →
      getEnvBranchChangedFiles git cfg = getChangedFiles git cfg)
    ∧ (∀ m e, git.logMergeFP (deployBranchOf cfg) = .ok (some m) →
        git.showRaw m = .error e →
        getEnvBranchChangedFiles git cfg = getChangedFiles git cfg)
    ∧ (∀ m sh, git.logMergeFP (deployBranchOf cfg) = .ok (some m) →
        git.showRaw m = .ok sh → (parsedParents sh).length < 2 →
        getEnvBranchChangedFiles git cfg = getChangedFiles git cfg)
    ∧ (∀ m sh p0 p1 rest e, git.logMergeFP (deployBranchOf cfg) = .ok (some m) →
        git.showRaw m = .ok sh → parsedParents sh = p0 :: p1 :: rest →
        git.catFile p1 = .error e →
        getEnvBranchChangedFiles git cfg = getChangedFiles git cfg)
    ∧ (∀ m sh p0 p1 rest e, git.logMergeFP (deployBranchOf cfg) = .ok (some m) →
        git.showRaw m = .ok sh → parsedParents sh = p0 :: p1 :: rest →
        git.catFile p1 = .ok () →
        git.mergeBaseRaw ("origin/" ++ mainlineOf cfg) p1 = .error e →
        getEnvBranchChangedFiles git cfg = getChangedFiles git cfg)
    ∧ (∀ m sh p0 p1 rest base e, git.logMergeFP (deployBranchOf cfg) = .ok (some m) →
        git.showRaw m = .ok sh → parsedParents sh = p0 :: p1 :: rest →
        git.catFile p1 = .ok () →
        git.mergeBaseRaw ("origin/" ++ mainlineOf cfg) p1 = .ok base →
        git.diffRaw (jsTrim base) p1 = .error e →
        getEnvBranchChangedFiles git cfg = getChangedFiles git cfg) := by
  refine ⟨?_, ?_, ?_, ?_, ?_, ?_, ?_⟩
  · intro e hlog
    simp only [getEnvBranchChangedFiles, hlog]
  · intro hlog
    simp only [getEnvBranchChangedFiles, hlog]
  · intro m e hlog hshow
    simp only [getEnvBranchChangedFiles, hlog, hshow]
  · intro m sh hlog hshow hlen
    rcases hp : parsedParents sh with _ | ⟨p, _ | ⟨q, t⟩⟩
    · simp only [getEnvBranchChangedFiles, hlog, hshow, hp]
    · simp only [getEnvBranchChangedFiles, hlog, hshow, hp]
    · rw [hp] at hlen
      simp at hlen
      omega
  · intro m sh p0 p1 rest e hlog hshow hpar hcat
    simp only [getEnvBranchChangedFiles, hlog, hshow, hpar, hcat]
  · intro m sh p0 p1 rest e hlog hshow hpar hcat hmb
    simp only [getEnvBranchChangedFiles, hlog, hshow, hpar, hcat, hmb]
  · intro m sh p0 p1 rest base e hlog hshow hpar hcat hmb hdiff
    simp only [getEnvBranchChangedFiles, hlog, hshow, hpar, hcat, hmb, hdiff]

theorem branch_deploy_fallback_eq_direct_witness :
    getEnvBranchChangedFiles fbGit synthConfig = getChangedFiles fbGit synthConfig :=
  (branch_deploy_fallback_eq_direct fbGit synthConfig).2.1 rfl

/-- A gateway whose only valid diff endpoints are `origin/master` and `HEAD`
— the situation of the branch-deploy fallback, where the source branch is
empty and `origin/<source>` is the ill-formed ref `origin/`. -/
def c3Git : Git :=
  ⟨.ok (), fun _ => .ok none, fun _ => .error "na", fun _ => .error "na",
   fun _ _ => .error "na",
   fun a b => if a = "origin/master" && b = "HEAD" then .ok "a.ts" else .error "bad ref"⟩

/-- The direct-mode configuration with an empty source branch (what
branch-deploy mode passes to the fallback). -/
def c3Cfg : ESLintConfig :=
  ⟨true, "", "master", false, "/ws", "/proj", ["src"], false, none⟩

def c3TsCfg : TSConfig := ⟨"/proj", [], false, ["src"], "", "master"⟩

/-- **C3 counterexample** — With an empty source branch, the eslint.ts
direct resolver (the one the branch-deploy fallback calls) does **not**
return the `origin/master..HEAD` diff: it asks git to diff against
`origin/` + `""`, the call fails, and it returns `[]`, while the HEAD diff
at the same state is `["a.ts"]` (as the typescript.ts resolver shows). -/
theorem direct_mode_head_fallback_cex :
    getChangedFiles c3Git c3Cfg = []
    ∧ tsGetChangedFiles c3Git c3TsCfg = ["a.ts"]
    ∧ getChangedFiles c3Git c3Cfg ≠ splitNonEmptyLines "a.ts" := by decide

/-- **C3 (amended)** — The typescript.ts direct resolver diffs
`origin/target` against `origin/source`, or against `HEAD` when the source
branch is empty.  The eslint.ts direct resolver — the branch-deploy
fallback — always diffs `origin/target` against `origin/<source>`, with no
HEAD fallback: with an empty source it queries the ref `origin/` and, when
that diff fails, returns the empty change-set. -/
theorem direct_mode_resolution (git : Git) (tcfg : TSConfig)
    (ecfg : ESLintConfig) (d e : String) :
    (tcfg.sourceBranch ≠ "" → git.fetch = .ok () →
      git.diffRaw ("origin/" ++ tcfg.targetBranch) ("origin/" ++ tcfg.sourceBranch) = .ok d →
      tsGetChangedFiles git tcfg = splitNonEmptyLines d)
    ∧ (tcfg.sourceBranch = "" → git.fetch = .ok () →
      git.diffRaw ("origin/" ++ tcfg.targetBranch) "HEAD" = .ok d →
      tsGetChangedFiles git tcfg = splitNonEmptyLines d)
    ∧ (git.fetch = .ok () →
      git.diffRaw ("origin/" ++ ecfg.targetBranch) ("origin/" ++ ecfg.sourceBranch) = .ok d →
      getChangedFiles git ecfg = splitNonEmptyLines d)
    ∧ (git.fetch = .ok () →
      git.diffRaw ("origin/" ++ ecfg.targetBranch) ("origin/" ++ ecfg.sourceBranch) = .error e →
      getChangedFiles git ecfg = []) := by
  refine ⟨?_, ?_, ?_, ?_⟩
  · intro hs hf hd
    simp only [tsGetChangedFiles, hf]
    rw [if_pos hs, hd]
  · intro hs hf hd
    simp only [tsGetChangedFiles, hf]
    rw [if_neg (by simp [hs]), hd]
  · intro hf hd
    simp only [getChangedFiles, hf, hd]
  · intro hf hd
    simp only [getChangedFiles, hf, hd]

theorem direct_mode_resolution_witness :
    tsGetChangedFiles c3Git c3TsCfg = splitNonEmptyLines "a.ts" :=
  (direct_mode_resolution c3Git c3TsCfg c3Cfg "a.ts" "na").2.1 rfl rfl rfl

/-! ### Orchestrator claim helpers -/

/-- "The enabled checker's recorded outcome exists and succeeded". -/
def outcomeOk {α : Type} (success : α → Bool) (enabled : Bool)
    (r : Except String α) : Prop :=
  enabled = true → ∃ o, r = .ok o ∧ success o = true

theorem eslintTally_ok_iff (en : Bool) (r : Except String ESLintResult) :
    (eslintTally en r).failed = false ↔ outcomeOk ESLintResult.success en r := by
  cases en
  · simp [eslintTally, outcomeOk]
  · cases r with
    | error m => simp [eslintTally, outcomeOk]
    | ok o =>
      by_cases h : o.success = true
      · simp [eslintTally, outcomeOk, h]
      · simp [eslintTally, outcomeOk, Bool.eq_false_iff.2 h, h]

theorem tsTally_ok_iff (en : Bool) (r : Except String TSResult) :
    (tsTally en r).failed = false ↔ outcomeOk TSResult.success en r := by
  cases en
  · simp [tsTally, outcomeOk]
  · cases r with
    | error m => simp [tsTally, outcomeOk]
    | ok o =>
      by_cases h : o.success = true
      · simp [tsTally, outcomeOk, h]
      · simp [tsTally, outcomeOk, Bool.eq_false_iff.2 h, h]

theorem covTally_ok_iff (en : Bool) (r : Except String TypeScriptCoverageResult) :
    (covTally en r).failed = false ↔
      outcomeOk TypeScriptCoverageResult.success en r := by
  cases en
  · simp [covTally, outcomeOk]
  · cases r with
    | error m => simp [covTally, outcomeOk]
    | ok o =>
      by_cases h : o.success = true
      · simp [covTally, outcomeOk, h]
      · simp [covTally, outcomeOk, Bool.eq_false_iff.2 h, h]

/-- **C4** — Once the run reaches the checker phase, the process exit code
is `0` iff every enabled checker's outcome exists (did not throw) and has
`success = true`; any failing or throwing enabled checker makes it `1`.
Warnings occur nowhere in the condition. -/
theorem exit_zero_iff_all_enabled_succeed (inp : StepInputs)
    (h : inp.userScriptOk = true) :
    (runStepModel inp).exitCode = 0 ↔
      (outcomeOk ESLintResult.success inp.enableESLint inp.eslintRun
       ∧ outcomeOk TSResult.success inp.enableTypeScript
           (inp.tsRun (checkedFilesOf inp))
       ∧ outcomeOk TypeScriptCoverageResult.success inp.enableCoverage
           inp.covRun) := by
  rw [← eslintTally_ok_iff, ← tsTally_ok_iff, ← covTally_ok_iff]
  simp only [runStepModel, h, Bool.not_true, Bool.false_eq_true, if_false]
  rcases he : (eslintTally inp.enableESLint inp.eslintRun).failed <;>
    rcases ht : (tsTally inp.enableTypeScript (inp.tsRun (checkedFilesOf inp))).failed <;>
    rcases hc : (covTally inp.enableCoverage inp.covRun).failed <;> simp

def c4Inp : StepInputs :=
  ⟨true, true, true, true,
   .ok ⟨true, ["src/a.ts"], 0, 2, "ok"⟩,
   fun _ => .ok ⟨true, 0, 0, "ok", 1⟩,
   .ok ⟨true, 90, "ok"⟩⟩

theorem exit_zero_iff_all_enabled_succeed_witness :
    (runStepModel c4Inp).exitCode = 0 :=
  (exit_zero_iff_all_enabled_succeed c4Inp rfl).mpr
    ⟨fun _ => ⟨_, rfl, rfl⟩, fun _ => ⟨_, rfl, rfl⟩, fun _ => ⟨_, rfl, rfl⟩⟩

/-- **C5** — Every outcome the ESLint and TypeScript checkers produce —
clean pass, skipped, or parsed from a failing tool run — satisfies
`success = (errorCount == 0)`; the warning count never enters. -/
theorem checker_success_iff_no_errors :
    (∀ (files : List String) (pd : String) (full : Bool)
        (tool : String → Except String String),
      (runESLintCheck files pd full tool).success =
        ((runESLintCheck files pd full tool).errorCount == 0))
    ∧ (∀ (cfg : TSConfig) (env : TSEnv),
      (runTypeScriptCheck cfg env).success =
        ((runTypeScriptCheck cfg env).errorCount == 0)) := by
  constructor
  · intro files pd full tool
    unfold runESLintCheck
    split
    · rfl
    · cases tool (eslintCommand files full) <;> rfl
  · intro cfg env
    unfold runTypeScriptCheck
    split
    · rfl
    · split
      · rfl
      · split <;> rfl

def eslintEntry (en : Bool) (r : Except String ESLintResult) : SummaryEntry :=
  (eslintTally en r).entry

def tsEntry (en : Bool) (r : Except String TSResult) : SummaryEntry :=
  (tsTally en r).entry

def covEntry (en : Bool) (r : Except String TypeScriptCoverageResult) : SummaryEntry :=
  (covTally en r).entry

/-- **C6** — The final summary always holds exactly one entry per checker,
each computed from that checker's own enabled flag and result alone; an
exception from the ESLint checker becomes an `errored` entry carrying the
exception message and a non-zero exit, while the TypeScript and coverage
entries are still those of their own runs. -/
theorem checker_exception_isolated (inp : StepInputs)
    (h : inp.userScriptOk = true) :
    (runStepModel inp).summary =
      [eslintEntry inp.enableESLint inp.eslintRun,
       tsEntry inp.enableTypeScript (inp.tsRun (checkedFilesOf inp)),
       covEntry inp.enableCoverage inp.covRun]
    ∧ (∀ m, inp.enableESLint = true → inp.eslintRun = .error m →
        eslintEntry inp.enableESLint inp.eslintRun = .errored m
        ∧ (runStepModel inp).exitCode = 1)
    ∧ (runStepModel inp).summary.length = 3 := by
  refine ⟨?_, ?_, ?_⟩
  · simp [runStepModel, h, eslintEntry, tsEntry, covEntry]
  · intro m he hr
    refine ⟨by simp [eslintEntry, eslintTally, he, hr], ?_⟩
    simp [runStepModel, h, he, hr, eslintTally]
  · simp [runStepModel, h]

def c6Inp : StepInputs :=
  ⟨true, true, true, true, .error "boom",
   fun _ => .ok ⟨true, 0, 0, "ok", 0⟩, .ok ⟨true, 90, "ok"⟩⟩

theorem checker_exception_isolated_witness :
    (runStepModel c6Inp).summary = [.errored "boom", .passed, .passed]
    ∧ (runStepModel c6Inp).exitCode = 1 := by
  have h := checker_exception_isolated c6Inp rfl
  exact ⟨h.1.trans (by decide), (h.2.1 "boom" rfl rfl).2⟩

/-- A coverage environment whose only defect is the missing `tsconfig.json`. -/
def c7Env : CoverageEnv := ⟨false, true, true, .ok (), .ok ""⟩

/-- Is the checker result a recorded outcome (as opposed to a thrown
exception)? -/
def isOkE {ε α : Type} : Except ε α → Bool
  | .ok _ => true
  | .error _ => false

/-- **C7 counterexample** — With `tsconfig.json` absent the coverage checker
does **not** skip with a trivially successful outcome: it throws (the call
yields no outcome at all, but an error carrying the missing-file message). -/
theorem coverage_missing_tsconfig_cex :
    isOkE (performTypeScriptCoverageCheck true 90 c7Env) = false
    ∧ performTypeScriptCoverageCheck true 90 c7Env =
        .error "未找到 tsconfig.json 文件，无法进行TypeScript覆盖率检查" :=
  ⟨rfl, rfl⟩

/-- **C7 (amended)** — A missing `tsconfig.json` makes the TypeScript type
check skip with a trivially successful outcome, but makes the coverage
checker throw; the orchestrator converts that exception into a failing
(`errored`) entry and a non-zero exit. -/
theorem missing_tsconfig_prerequisite :
    (∀ cfg env, env.tsconfigExists = false →
      (runTypeScriptCheck cfg env).success = true
      ∧ (runTypeScriptCheck cfg env).errorCount = 0)
    ∧ (∀ thr env, env.tsconfigExists = false →
      performTypeScriptCoverageCheck true thr env =
        .error "未找到 tsconfig.json 文件，无法进行TypeScript覆盖率检查")
    ∧ (∀ inp m, inp.userScriptOk = true → inp.enableCoverage = true →
      inp.covRun = .error m →
      (runStepModel inp).exitCode = 1
      ∧ covEntry inp.enableCoverage inp.covRun = .errored m) := by
  refine ⟨?_, ?_, ?_⟩
  · intro cfg env h
    simp [runTypeScriptCheck, h]
  · intro thr env h
    simp [performTypeScriptCoverageCheck, h]
  · intro inp m hu he hr
    refine ⟨?_, by simp [covEntry, covTally, he, hr]⟩
    simp [runStepModel, hu, he, hr, covTally]

theorem missing_tsconfig_prerequisite_witness :
    (runTypeScriptCheck c3TsCfg ⟨false, fbGit, fun _ => false, fun _ => .error "na"⟩).success = true
    ∧ performTypeScriptCoverageCheck true 90 c7Env =
        .error "未找到 tsconfig.json 文件，无法进行TypeScript覆盖率检查" :=
  ⟨(missing_tsconfig_prerequisite.1 c3TsCfg
      ⟨false, fbGit, fun _ => false, fun _ => .error "na"⟩ rfl).1,
   missing_tsconfig_prerequisite.2.1 90 c7Env rfl⟩

/-- A gateway that answers nothing — the state of a directory that is not a
git working tree. -/
def deadGit : Git :=
  ⟨.error "no repo", fun _ => .error "no repo", fun _ => .error "no repo",
   fun _ => .error "no repo", fun _ _ => .error "no repo", fun _ _ => .error "no repo"⟩

def c8Cfg : ESLintConfig :=
  ⟨true, "feature", "master", false, "/ws", "/proj", ["src"], false, none⟩

def c8ESLintEnv : ESLintEnv := ⟨false, deadGit, fun _ => false, fun _ => .error "eslint"⟩

def c8TsEnv : TSEnv := ⟨false, deadGit, fun _ => false, fun _ => .error "tsc"⟩

def c8Inp : StepInputs :=
  ⟨true, true, true, false,
   performESLintCheck c8Cfg c8ESLintEnv,
   fun files => .ok (performTypeScriptCheck "/proj" files false ["src"] "" "master" c8TsEnv),
   .ok ⟨true, 90, "na"⟩⟩

/-- **C8 counterexample** — Outside a git working tree the run does **not**
abort before any checker: the ESLint checker's thrown error is recorded as
its own failing summary entry, the TypeScript checker still runs (its
`passed` entry is present) and only then does the run exit non-zero. -/
theorem non_git_repo_cex :
    performESLintCheck c8Cfg c8ESLintEnv = .error "当前目录不是git仓库，无法进行增量检查"
    ∧ (runStepModel c8Inp).summary =
        [.errored "当前目录不是git仓库，无法进行增量检查", .passed, .disabled]
    ∧ (runStepModel c8Inp).exitCode = 1 := by
  refine ⟨rfl, by decide, rfl⟩

/-- **C8 (amended)** — A non-git working tree makes the (enabled) ESLint
checker throw; the orchestrator records the exception as a failing ESLint
entry, still runs and reports the remaining checkers, and exits non-zero. -/
theorem non_git_repo_recorded_failure :
    (∀ cfg env, cfg.enableCheck = true → env.isGitRepo = false →
      performESLintCheck cfg env = .error "当前目录不是git仓库，无法进行增量检查")
    ∧ (∀ inp m, inp.userScriptOk = true → inp.enableESLint = true →
      inp.eslintRun = .error m →
      (runStepModel inp).exitCode = 1
      ∧ (runStepModel inp).summary =
          [.errored m, tsEntry inp.enableTypeScript (inp.tsRun []),
           covEntry inp.enableCoverage inp.covRun]) := by
  constructor
  · intro cfg env hc hg
    simp [performESLintCheck, hc, hg]
  · intro inp m hu he hr
    have hcf : checkedFilesOf inp = [] := by simp [checkedFilesOf, he, hr]
    constructor
    · simp [runStepModel, hu, he, hr, eslintTally]
    · simp [runStepModel, hu, he, hr, eslintTally, tsEntry, covEntry, hcf]

theorem non_git_repo_recorded_failure_witness :
    performESLintCheck c8Cfg c8ESLintEnv = .error "当前目录不是git仓库，无法进行增量检查"
    ∧ (runStepModel c6Inp).exitCode = 1 :=
  ⟨non_git_repo_recorded_failure.1 c8Cfg c8ESLintEnv rfl rfl,
   (non_git_repo_recorded_failure.2 c6Inp "boom" rfl rfl rfl).1⟩

/-- **C9 counterexample** — On output where the primary line patterns find
zero errors and zero warnings but the substring fallback finds one error,
the outcome's success is `false` — refuting "success is false only if the
secondary fallback parse also finds zero findings" (here success is false
while the fallback found a non-zero count; indeed when the fallback also
finds zero the code makes success *true*). -/
theorem eslint_fallback_parse_cex :
    primaryCounts "src/a.ts: Error - oops" = (0, 0)
    ∧ fallbackCounts "src/a.ts: Error - oops" = (1, 0)
    ∧ (runESLintCheck ["src/a.ts"] "/proj" false
        (fun _ => .error "src/a.ts: Error - oops")).success = false
    ∧ (runESLintCheck ["src/a.ts"] "/proj" false
        (fun _ => .error "tsc crashed with no findings")).success = true := by
  decide

/-- **C9 (amended)** — When a checker tool exits non-zero and the primary
patterns count zero errors and zero warnings, the fallback substring pass
supplies the counts and the outcome succeeds iff the fallback error count is
zero (so a non-zero exit with no recognizable findings in either pass yields
`success = true`); when the primary pass found anything, its counts stand. -/
theorem eslint_two_pass_parse (files : List String) (pd output : String)
    (hf : files ≠ []) :
    (primaryCounts output = (0, 0) →
      (runESLintCheck files pd false (fun _ => .error output)).errorCount =
          (fallbackCounts output).1
      ∧ (runESLintCheck files pd false (fun _ => .error output)).warningCount =
          (fallbackCounts output).2
      ∧ ((runESLintCheck files pd false (fun _ => .error output)).success = true
          ↔ (fallbackCounts output).1 = 0))
    ∧ (primaryCounts output ≠ (0, 0) →
      (runESLintCheck files pd false (fun _ => .error output)).errorCount =
          (primaryCounts output).1
      ∧ (runESLintCheck files pd false (fun _ => .error output)).warningCount =
          (primaryCounts output).2
      ∧ ((runESLintCheck files pd false (fun _ => .error output)).success = true
          ↔ (primaryCounts output).1 = 0)) := by
  have hfe : files.isEmpty = false := by
    cases files with
    | nil => exact absurd rfl hf
    | cons a t => rfl
  constructor
  · intro hp
    simp [runESLintCheck, hfe, eslintCounts, hp]
  · intro hp
    have hb : ((primaryCounts output).1 = 0 && (primaryCounts output).2 = 0) = false := by
      rcases h1 : (primaryCounts output).1 with _ | a
      · rcases h2 : (primaryCounts output).2 with _ | b
        · exact absurd (Prod.ext h1 h2) hp
        · simp
      · simp
    simp [runESLintCheck, hfe, eslintCounts, hb]

theorem eslint_two_pass_parse_witness :
    (runESLintCheck ["src/a.ts"] "/proj" false
        (fun _ => .error "src/a.ts: Error - oops")).errorCount = 1 := by
  have h := (eslint_two_pass_parse ["src/a.ts"] "/proj" "src/a.ts: Error - oops"
      (by decide)).1 (by decide)
  exact h.1.trans (by decide)

/-- **C10 counterexample** — The scope filters do not deduplicate: a
duplicated input path stays duplicated in both filters' outputs. -/
theorem scope_filter_dedup_cex :
    filterTypeScriptFiles ["src/a.ts", "src/a.ts"] "/proj" ["src"] (fun _ => true)
      = ["src/a.ts", "src/a.ts"]
    ∧ ¬ (filterTypeScriptFiles ["src/a.ts", "src/a.ts"] "/proj" ["src"]
          (fun _ => true)).Nodup
    ∧ ¬ (filterFrontendFiles ["src/a.ts", "src/a.ts"] "/proj" ["src"]
          (fun _ => true)).Nodup := by
  decide

/-- **C10 (amended)** — Every path surviving either scope filter passed the
on-disk existence check; the filters preserve duplicate-freedom (the output
is a sublist of the input and is duplicate-free whenever the input is) but
do not themselves deduplicate. -/
theorem scope_filter_exists_nodup (files : List String) (pd : String)
    (dirs : List String) (ex : String → Bool) :
    (∀ f ∈ filterTypeScriptFiles files pd dirs ex, ex (joinPath pd f) = true)
    ∧ (files.Nodup → (filterTypeScriptFiles files pd dirs ex).Nodup)
    ∧ (filterTypeScriptFiles files pd dirs ex).Sublist files
    ∧ (∀ f ∈ filterFrontendFiles files pd dirs ex, ex (joinPath pd f) = true)
    ∧ (files.Nodup → (filterFrontendFiles files pd dirs ex).Nodup)
    ∧ (filterFrontendFiles files pd dirs ex).Sublist files := by
  refine ⟨?_, ?_, ?_, ?_, ?_, ?_⟩
  · intro f hfm
    unfold filterTypeScriptFiles at hfm
    exact (List.mem_filter.mp hfm).2
  · intro h
    unfold filterTypeScriptFiles
    exact (((h.filter _).filter _).filter _).filter _
  · unfold filterTypeScriptFiles
    exact (List.filter_sublist _).trans ((List.filter_sublist _).trans
      ((List.filter_sublist _).trans (List.filter_sublist _)))
  · intro f hfm
    unfold filterFrontendFiles at hfm
    exact (List.mem_filter.mp hfm).2
  · intro h
    unfold filterFrontendFiles
    exact ((h.filter _).filter _).filter _
  · unfold filterFrontendFiles
    exact (List.filter_sublist _).trans ((List.filter_sublist _).trans
      (List.filter_sublist _))

theorem scope_filter_exists_nodup_witness :
    (filterTypeScriptFiles ["src/a.ts"] "/p" ["src"] (fun _ => true)).Nodup :=
  (scope_filter_exists_nodup ["src/a.ts"] "/p" ["src"] (fun _ => true)).2.1
    (by decide)

end Wotu
